import Mathlib

/-!
# Verification of go-vanatime

A shallow embedding of the `vanatime` Go package (Vana'diel time from
Final Fantasy XI) together with proofs about its documented behaviour.

Modelling conventions:
* Go `int64` values are modelled as `Int`.  Where two's-complement
  wraparound is observable (the real-time conversions, `Time.Add`,
  `Time.Sub`, the duration rounding helpers) every Go arithmetic
  operation is wrapped with `wrap64`, which reduces an integer into
  `[-2^63, 2^63)` exactly as Go `int64` overflow does.
* Go `/` and `%` on `int64` truncate toward zero; they are modelled by
  `Int.tdiv` and `Int.tmod`.
* `Date`/`norm` (the calendar-field normalisation cascade copied from
  Go's standard library) are modelled over unbounded integers: their
  interesting behaviour is the carry rule itself, and the model agrees
  with the Go code on every input for which no `int64` overflow occurs.
-/

namespace Vanatime

/-! ## Duration unit constants (duration.go) -/

def Microsecond : Int := 1

def Millisecond : Int := 1000 * Microsecond

def Second : Int := 1000 * Millisecond

def Minute : Int := 60 * Second

def Hour : Int := 60 * Minute

def Day : Int := 24 * Hour

def Week : Int := 8 * Day

def Month : Int := 30 * Day

def Year : Int := 360 * Day

/-! ## 64-bit machine arithmetic -/

def i64min : Int := -(2 ^ 63)

def i64max : Int := 2 ^ 63 - 1

/-- Reduce an integer into `[-2^63, 2^63)`, i.e. the value a Go `int64`
holds after two's-complement wraparound. -/
def wrap64 (x : Int) : Int := (x + 2 ^ 63) % 2 ^ 64 - 2 ^ 63

/-- Go `int64` addition. -/
def add64 (a b : Int) : Int := wrap64 (a + b)

/-- Go `int64` subtraction. -/
def sub64 (a b : Int) : Int := wrap64 (a - b)

/-- Go `int64` multiplication. -/
def mul64 (a b : Int) : Int := wrap64 (a * b)

/-- Go conversion `uint64(x)` of an `int64` value: the representative of
`x` modulo `2^64` in `[0, 2^64)`. -/
def toU64 (x : Int) : Int := x % 2 ^ 64

/-! ## time.go constants -/

def TimeScale : Int := 25

def BaseYear : Int := 886

def BaseTime : Int := (BaseYear * Year).tdiv TimeScale

-- 2002-01-01 00:00:00.000 JST
def EarthBaseTime : Int := 1009810800 * Second

def VanaEarthDiffTime : Int := BaseTime - EarthBaseTime

def MoonCycleDays : Int := 84

/-! ## Conversions between Earth time and Vana'diel time (time.go) -/

/-- `func e2v(etime int64) int64 { return (etime+VanaEarthDiffTime)*int64(TimeScale) - int64(Year) }` -/
def e2v (etime : Int) : Int :=
  sub64 (mul64 (add64 etime VanaEarthDiffTime) TimeScale) Year

/-- `func v2e(vtime int64) int64 { return ((vtime + int64(Year)) / int64(TimeScale)) - VanaEarthDiffTime }` -/
def v2e (vtime : Int) : Int :=
  sub64 ((add64 vtime Year).tdiv TimeScale) VanaEarthDiffTime

/-! ## Field normalisation and calendar construction (time.go) -/

/-- `func norm(hi, lo, base int) (nhi, nlo int)` — the carry-normalisation
helper copied from Go's standard library `time` package.  `n1` is the
borrow applied when `lo` is negative and `n2` the carry applied when the
adjusted `lo` is at least `base`; in the Go source they are introduced by
the two successive `if` blocks. -/
def norm (hi lo base : Int) : Int × Int :=
  let n1 : Int := if lo < 0 then (-lo - 1).tdiv base + 1 else 0
  let hi1 := hi - n1
  let lo1 := lo + n1 * base
  let n2 : Int := if lo1 ≥ base then lo1.tdiv base else 0
  (hi1 + n2, lo1 - n2 * base)

/-- A Vana'diel instant: microseconds since C.E. 0001-01-01 00:00:00. -/
structure Time where
  time : Int
deriving DecidableEq

/-- `func Date(year, mon, day, hour, min, sec, usec int) Time` —
normalises every field from the smallest up, then assembles the
microsecond count. -/
def Date (year mon day hour min sec usec : Int) : Time :=
  let p1 := norm sec usec 1000000
  let p2 := norm min p1.1 60
  let p3 := norm hour p2.1 60
  let p4 := norm day p3.1 24
  let p5 := norm mon p4.1 30
  let p6 := norm year p5.1 12
  ⟨(p6.1 - 1) * Year + (p6.2 - 1) * Month + (p5.2 - 1) * Day +
    p4.2 * Hour + p3.2 * Minute + p2.2 * Second + p1.2⟩

/-! ## Time operations (time.go) -/

/-- `func (t Time) Add(d Duration) Time { return Time{t.time + int64(d)} }` -/
def Time.Add (t : Time) (d : Int) : Time := ⟨add64 t.time d⟩

/-- `func lessThanHalf(x, y Duration) bool { return uint64(x)+uint64(x) < uint64(y) }`
(the `uint64` sum itself wraps modulo `2^64`). -/
def lessThanHalf (x y : Int) : Prop := (toU64 x + toU64 x) % 2 ^ 64 < toU64 y

instance (x y : Int) : Decidable (lessThanHalf x y) := by
  unfold lessThanHalf; infer_instance

/-- `func (t Time) Truncate(d Duration) Time` -/
def Time.Truncate (t : Time) (d : Int) : Time :=
  if d ≤ 0 then t
  else
    let r := t.time.tmod d
    t.Add (-r)

/-- `func (t Time) Round(d Duration) Time` -/
def Time.Round (t : Time) (d : Int) : Time :=
  if d ≤ 0 then t
  else
    let r := t.time.tmod d
    if lessThanHalf r d then t.Add (-r) else t.Add (d - r)

/-- `func (t Time) Sub(u Time) Duration` — raw difference with a
re-addition check that falls back to the saturated values. -/
def Time.Sub (t u : Time) : Int :=
  let d := sub64 t.time u.time
  if (u.Add d).time = t.time then d
  else if t.time < u.time then i64min
  else i64max

/-! ## Moon (time.go / duration.go) -/

/-- The derived moon value: whole-day count since epoch and the time
within the 7-day sub-cycle. -/
structure Moon where
  days : Int
  timeOfMoon : Int
deriving DecidableEq

/-- `func (t Time) Moon() Moon` — `days := int(t.time / int64(Day))`,
`timeOfMoon := (((days + 12) % 7) * Day) + (t.time % Day)`. -/
def Time.Moon (t : Time) : Moon :=
  let days := t.time.tdiv Day
  ⟨days, (days + 12).tmod 7 * Day + t.time.tmod Day⟩

/-- `func (m Moon) Phase() MoonPhase { return MoonPhase(((m.days + 12) / 7) % 12) }`
(the `MoonPhase` enumeration is its underlying integer here). -/
def Moon.Phase (m : Moon) : Int := ((m.days + 12).tdiv 7).tmod 12

/-- Round `num / den` (with `den > 0`) to the nearest integer, halves
away from zero.  This is Go's `math.Round` applied to the exact rational
value; for the inputs `Moon.Percent` feeds it (numerators `200·x` with
`-83 ≤ x ≤ 83`, denominator 84) the `float64` expression
`float64(x) * (200.0/84.0)` is always far closer to `200·x/84` than to
any rounding boundary, so the exact-rational model coincides with the
floating-point computation. -/
def roundHalfAway (num den : Int) : Int :=
  if 0 ≤ num then (2 * num + den) / (2 * den)
  else -((2 * (-num) + den) / (2 * den))

/-- `func (m Moon) Percent() int` —
`percent := math.Round(float64((m.days+8)%MoonCycleDays) * (200.0 / float64(MoonCycleDays)))`,
reflected at 100. -/
def Moon.Percent (m : Moon) : Int :=
  let percent := roundHalfAway ((m.days + 8).tmod MoonCycleDays * 200) MoonCycleDays
  if percent > 100 then 200 - percent else percent

/-! ## Duration operations (duration.go) -/

/-- `func (d Duration) Truncate(m Duration) Duration` — note the Go doc
comment: "If m <= 0, Truncate returns d unchanged." -/
def Duration.Truncate (d m : Int) : Int :=
  if m ≤ 0 then d else d - d.tmod m

/-- Go standard library `time.Duration.Round` (operating on nanosecond
counts), which `vanatime.Duration.Round` delegates to:

```
func (d Duration) Round(m Duration) Duration {
    if m <= 0 { return d }
    r := d % m
    if d < 0 {
        r = -r
        if lessThanHalf(r, m) { return d + r }
        if d1 := d - m + r; d1 < d { return d1 }
        return minDuration
    }
    if lessThanHalf(r, m) { return d - r }
    if d1 := d + m - r; d1 > d { return d1 }
    return maxDuration
}
```
-/
def stdRound (d m : Int) : Int :=
  if m ≤ 0 then d
  else
    let r := d.tmod m
    if d < 0 then
      let r1 := wrap64 (-r)
      if lessThanHalf r1 m then add64 d r1
      else
        let d1 := add64 (sub64 d m) r1
        if d1 < d then d1 else i64min
    else
      if lessThanHalf r m then sub64 d r
      else
        let d1 := sub64 (add64 d m) r
        if d1 > d then d1 else i64max

/-- `func (d Duration) Round(m Duration) Duration` —
`t := time.Duration(d * 1000).Round(time.Duration(m * 1000)); return Duration(t / 1000)`. -/
def Duration.Round (d m : Int) : Int :=
  (stdRound (mul64 d 1000) (mul64 m 1000)).tdiv 1000

/-! ## Helper lemmas -/

theorem wrap64_eq_self {x : Int} (h1 : i64min ≤ x) (h2 : x ≤ i64max) : wrap64 x = x := by
  unfold wrap64 i64min i64max at *
  omega

theorem wrap64_lb (x : Int) : i64min ≤ wrap64 x := by
  unfold wrap64 i64min
  omega

theorem wrap64_ub (x : Int) : wrap64 x ≤ i64max := by
  unfold wrap64 i64max
  omega

/-- Characterisation of `norm` for a positive base: it is exactly
floor-division carry with a non-negative remainder. -/
theorem norm_pos (hi lo base : Int) (hb : 0 < base) :
    norm hi lo base = (hi + lo / base, lo % base) := by
  have hb0 : base ≠ 0 := by omega
  have hmod0 : 0 ≤ lo % base := Int.emod_nonneg lo hb0
  have hmodlt : lo % base < base := Int.emod_lt_of_pos lo hb
  have hdm : base * (lo / base) + lo % base = lo := Int.ediv_add_emod lo base
  unfold norm
  by_cases hlo : lo < 0
  · have hq : lo / base < 0 := Int.ediv_neg' hlo hb
    -- the borrow count computed by the first branch
    have hkey : (-lo - 1) / base = -(lo / base) - 1 := by
      have harith : (base - lo % base - 1) + base * (-(lo / base) - 1) = -lo - 1 := by
        nlinarith [hdm]
      exact ((Int.ediv_emod_unique hb).mpr ⟨harith, by omega, by omega⟩).1
    have htd : (-lo - 1).tdiv base = (-lo - 1) / base :=
      Int.tdiv_eq_ediv (by omega) (by omega)
    simp only [if_pos hlo, htd, hkey]
    have hlo1 : lo + (-(lo / base) - 1 + 1) * base = lo % base := by nlinarith [hdm]
    rw [hlo1]
    have : ¬ (lo % base ≥ base) := by omega
    simp only [if_neg this, Prod.mk.injEq]
    constructor <;> ring_nf
  · simp only [if_neg hlo, zero_mul, add_zero]
    push_neg at hlo
    by_cases hge : lo ≥ base
    · have htd : lo.tdiv base = lo / base := Int.tdiv_eq_ediv hlo (by omega)
      simp only [if_pos hge, htd, Int.sub_zero, Prod.mk.injEq]
      have hdm2 : lo / base * base + lo % base = lo := by
        rw [mul_comm]; exact hdm
      exact ⟨trivial, by linarith [hdm2]⟩
    · have hd0 : lo / base = 0 := Int.ediv_eq_zero_of_lt hlo (by omega)
      have hm0 : lo % base = lo := Int.emod_eq_of_lt hlo (by omega)
      simp only [if_neg hge, zero_mul, Int.sub_zero, hd0, hm0, add_zero]

theorem norm_1000000 (hi lo : Int) :
    norm hi lo 1000000 = (hi + lo / 1000000, lo % 1000000) :=
  norm_pos hi lo 1000000 (by norm_num)

theorem norm_60 (hi lo : Int) : norm hi lo 60 = (hi + lo / 60, lo % 60) :=
  norm_pos hi lo 60 (by norm_num)

theorem norm_24 (hi lo : Int) : norm hi lo 24 = (hi + lo / 24, lo % 24) :=
  norm_pos hi lo 24 (by norm_num)

theorem norm_30 (hi lo : Int) : norm hi lo 30 = (hi + lo / 30, lo % 30) :=
  norm_pos hi lo 30 (by norm_num)

theorem norm_12 (hi lo : Int) : norm hi lo 12 = (hi + lo / 12, lo % 12) :=
  norm_pos hi lo 12 (by norm_num)

/-! ## Claim theorems -/

/-- C2.  Epoch anchor: the Time constructed from calendar fields
(1,1,1,0,0,0,0) has raw game-time count 0, and `v2e` maps it to exactly
Unix time -91270800 seconds (1967-02-10 00:00:00 +0900) with zero
microsecond remainder, pinning `VanaEarthDiffTime`. -/
theorem epoch_anchor :
    (Date 1 1 1 0 0 0 0).time = 0 ∧
    v2e (Date 1 1 1 0 0 0 0).time = -91270800 * 1000000 ∧
    (v2e (Date 1 1 1 0 0 0 0).time).tmod Second = 0 ∧
    VanaEarthDiffTime = (886 * Year).tdiv 25 - 1009810800 * Second := by
  refine ⟨by decide, by decide, by decide, by decide⟩

/-- C3.  Normalizing construction: `Date` is total over the integers and
normalizes out-of-range fields by cascading carries upward with
floor-division semantics (remainders end non-negative); in particular
month 14 of year `y` is month 2 of year `y + 1` for all values of the
remaining fields. -/
theorem date_carry_normalization :
    (∀ y d h mi s u : Int, Date y 14 d h mi s u = Date (y + 1) 2 d h mi s u) ∧
    (∀ hi lo base : Int, 0 < base →
      0 ≤ (norm hi lo base).2 ∧ (norm hi lo base).2 < base) := by
  constructor
  · intro y d h mi s u
    simp only [Date, norm_1000000, norm_60, norm_24, norm_30, norm_12, Year,
      Month, Day, Hour, Minute, Second, Millisecond, Microsecond, Time.mk.injEq]
    omega
  · intro hi lo base hb
    rw [norm_pos hi lo base hb]
    exact ⟨Int.emod_nonneg lo (by omega), Int.emod_lt_of_pos lo hb⟩

/-- Witness for C3 at concrete inputs. -/
theorem date_carry_normalization_witness :
    Date 5 14 3 4 5 6 7 = Date 6 2 3 4 5 6 7 ∧
    (0 ≤ (norm 3 (-7) 12).2 ∧ (norm 3 (-7) 12).2 < 12) :=
  ⟨date_carry_normalization.1 5 3 4 5 6 7,
   date_carry_normalization.2 3 (-7) 12 (by norm_num)⟩

set_option maxRecDepth 4000 in
/-- C1 counterexample.  The game→real→game direction of the claimed
round-trip fails already at the game-time count `v = 1`: `v2e` discards
`v mod 25` by truncating division, so `e2v (v2e 1) = 0 ≠ 1`.  The
real→game→real direction additionally fails at the extreme of the
64-bit range (`e = i64max`), where the scaling multiplication wraps. -/
theorem conversion_roundtrip_cex :
    e2v (v2e 1) = 0 ∧ e2v (v2e 1) ≠ 1 ∧ v2e (e2v i64max) ≠ i64max :=
  ⟨by decide, by decide, by decide⟩

/-- C1 amended.  For every real-time microsecond count `e` whose scaled
image stays inside `int64`, `v2e (e2v e) = e` exactly; for a game-time
count `v` (within `int64`, with `v + Year` not overflowing),
`e2v (v2e v) = v` exactly when `25 ∣ v`, i.e. for exactly the counts
that are images of `e2v`. -/
theorem conversion_roundtrip (e v : Int)
    (he1 : i64min ≤ (e + VanaEarthDiffTime) * 25 - Year)
    (he2 : (e + VanaEarthDiffTime) * 25 ≤ i64max)
    (hv1 : i64min ≤ v) (hv2 : v + Year ≤ i64max) (hv3 : (25 : Int) ∣ v) :
    v2e (e2v e) = e ∧ e2v (v2e v) = v := by
  have hYear : Year = 31104000000000 := by decide
  have hD : VanaEarthDiffTime = 92514960000000 := by decide
  have hmin : i64min = -9223372036854775808 := by decide
  have hmax : i64max = 9223372036854775807 := by decide
  simp only [hYear, hD, hmin, hmax] at he1 he2 hv1 hv2
  constructor
  · -- real → game → real
    have h1 : add64 e 92514960000000 = e + 92514960000000 := by
      unfold add64
      exact wrap64_eq_self (by rw [hmin]; omega) (by rw [hmax]; omega)
    have h2 : mul64 (e + 92514960000000) 25 = (e + 92514960000000) * 25 := by
      unfold mul64
      exact wrap64_eq_self (by rw [hmin]; omega) (by rw [hmax]; omega)
    have h3 : sub64 ((e + 92514960000000) * 25) 31104000000000 =
        (e + 92514960000000) * 25 - 31104000000000 := by
      unfold sub64
      exact wrap64_eq_self (by rw [hmin]; omega) (by rw [hmax]; omega)
    have h4 : add64 ((e + 92514960000000) * 25 - 31104000000000) 31104000000000 =
        (e + 92514960000000) * 25 := by
      unfold add64
      rw [show (e + 92514960000000) * 25 - 31104000000000 + 31104000000000 =
        (e + 92514960000000) * 25 by ring]
      exact wrap64_eq_self (by rw [hmin]; omega) (by rw [hmax]; omega)
    have h5 : ((e + 92514960000000) * 25).tdiv 25 = e + 92514960000000 := by
      rw [mul_comm]
      exact Int.mul_tdiv_cancel_left _ (by norm_num)
    have h6 : sub64 (e + 92514960000000) 92514960000000 = e := by
      unfold sub64
      rw [show e + 92514960000000 - 92514960000000 = e by ring]
      exact wrap64_eq_self (by rw [hmin]; omega) (by rw [hmax]; omega)
    simp only [e2v, v2e, TimeScale, hYear, hD, h1, h2, h3, h4, h5, h6]
  · -- game → real → game
    obtain ⟨k, hk⟩ := hv3
    have g1 : add64 v 31104000000000 = v + 31104000000000 := by
      unfold add64
      exact wrap64_eq_self (by rw [hmin]; omega) (by rw [hmax]; omega)
    have g2 : (v + 31104000000000).tdiv 25 = k + 1244160000000 := by
      rw [hk, show (25 : Int) * k + 31104000000000 = 25 * (k + 1244160000000) by ring]
      exact Int.mul_tdiv_cancel_left _ (by norm_num)
    have g3 : sub64 (k + 1244160000000) 92514960000000 = k - 91270800000000 := by
      unfold sub64
      rw [show k + 1244160000000 - 92514960000000 = k - 91270800000000 by ring]
      exact wrap64_eq_self (by rw [hmin]; omega) (by rw [hmax]; omega)
    have g4 : add64 (k - 91270800000000) 92514960000000 = k + 1244160000000 := by
      unfold add64
      rw [show k - 91270800000000 + 92514960000000 = k + 1244160000000 by ring]
      exact wrap64_eq_self (by rw [hmin]; omega) (by rw [hmax]; omega)
    have g5 : mul64 (k + 1244160000000) 25 = v + 31104000000000 := by
      unfold mul64
      rw [show (k + 1244160000000) * 25 = 25 * k + 31104000000000 by ring, ← hk]
      exact wrap64_eq_self (by rw [hmin]; omega) (by rw [hmax]; omega)
    have g6 : sub64 (v + 31104000000000) 31104000000000 = v := by
      unfold sub64
      rw [show v + 31104000000000 - 31104000000000 = v by ring]
      exact wrap64_eq_self (by rw [hmin]; omega) (by rw [hmax]; omega)
    simp only [e2v, v2e, TimeScale, hYear, hD, g1, g2, g3, g4, g5, g6]

/-- Witness for C1 at concrete inputs `e = 0`, `v = 25`. -/
theorem conversion_roundtrip_witness : v2e (e2v 0) = 0 ∧ e2v (v2e 25) = 25 :=
  conversion_roundtrip 0 25 (by decide) (by decide) (by decide) (by decide)
    ⟨1, by norm_num⟩

/-- C4.  `Time.Sub` returns the raw 64-bit difference whenever re-adding
it to `u` reproduces `t`, and otherwise falls back to the saturated
minimum/maximum duration depending on the order of `t` and `u`.  The
final conjunct shows that for `int64`-ranged operands the re-addition
check in fact always succeeds (the raw difference wraps to a value that
re-adds back to `t` exactly), so `Sub` always returns the wrapped raw
difference. -/
theorem sub_saturating (t u : Time)
    (ht1 : i64min ≤ t.time) (ht2 : t.time ≤ i64max)
    (_hu1 : i64min ≤ u.time) (_hu2 : u.time ≤ i64max) :
    ((u.Add (sub64 t.time u.time)).time = t.time →
      t.Sub u = sub64 t.time u.time) ∧
    ((u.Add (sub64 t.time u.time)).time ≠ t.time →
      (t.time < u.time → t.Sub u = i64min) ∧
      (u.time < t.time → t.Sub u = i64max)) ∧
    (u.Add (sub64 t.time u.time)).time = t.time := by
  have key : (u.Add (sub64 t.time u.time)).time = t.time := by
    simp only [Time.Add, add64, sub64, wrap64]
    simp only [i64min, i64max] at ht1 ht2
    omega
  refine ⟨?_, ?_, key⟩
  · intro _
    simp only [Time.Sub]
    rw [if_pos key]
  · intro h
    exact absurd key h

/-- Witness for C4 at `t = ⟨3⟩`, `u = ⟨10⟩`. -/
theorem sub_saturating_witness :
    ((Time.Add ⟨10⟩ (sub64 3 10)).time = 3 →
      Time.Sub ⟨3⟩ ⟨10⟩ = sub64 3 10) ∧
    ((Time.Add ⟨10⟩ (sub64 3 10)).time ≠ 3 →
      ((3 : Int) < 10 → Time.Sub ⟨3⟩ ⟨10⟩ = i64min) ∧
      ((10 : Int) < 3 → Time.Sub ⟨3⟩ ⟨10⟩ = i64max)) ∧
    (Time.Add ⟨10⟩ (sub64 3 10)).time = 3 :=
  sub_saturating ⟨3⟩ ⟨10⟩ (by decide) (by decide) (by decide) (by decide)

set_option maxRecDepth 4000 in
/-- C5 counterexample.  For a non-positive unit the claim predicts zero,
but `Duration.Truncate 5 0 = 5` and `Duration.Round 5 0 = 5`: both
return the duration unchanged (matching the Go doc comments). -/
theorem duration_round_nonpositive_cex :
    Duration.Truncate 5 0 = 5 ∧ Duration.Round 5 0 = 5 ∧ (5 : Int) ≠ 0 :=
  ⟨by decide, by decide, by decide⟩

/-- C5 amended.  For a non-positive unit `m`, `Duration.Truncate`
returns `d` unchanged, and `Duration.Round` returns `d` unchanged
provided the internal nanosecond conversions `d*1000` and `m*1000` do
not overflow `int64`. -/
theorem duration_round_nonpositive (d m : Int) (hm : m ≤ 0)
    (hm1 : i64min ≤ 1000 * m) (hd1 : i64min ≤ 1000 * d) (hd2 : 1000 * d ≤ i64max) :
    Duration.Truncate d m = d ∧ Duration.Round d m = d := by
  constructor
  · simp only [Duration.Truncate, if_pos hm]
  · have hmm : mul64 m 1000 = 1000 * m := by
      unfold mul64
      rw [show m * 1000 = 1000 * m by ring]
      exact wrap64_eq_self hm1 (by simp only [i64max]; omega)
    have hdd : mul64 d 1000 = 1000 * d := by
      unfold mul64
      rw [show d * 1000 = 1000 * d by ring]
      exact wrap64_eq_self hd1 hd2
    have hgo : stdRound (1000 * d) (1000 * m) = 1000 * d := by
      unfold stdRound
      rw [if_pos (by omega : (1000 : Int) * m ≤ 0)]
    have hcancel : ((1000 : Int) * d).tdiv 1000 = d :=
      Int.mul_tdiv_cancel_left _ (by norm_num)
    simp only [Duration.Round, hmm, hdd, hgo, hcancel]

/-- Witness for C5 at `d = 7`, `m = -3`. -/
theorem duration_round_nonpositive_witness :
    Duration.Truncate 7 (-3) = 7 ∧ Duration.Round 7 (-3) = 7 :=
  duration_round_nonpositive 7 (-3) (by norm_num) (by decide) (by decide)
    (by decide)

set_option maxRecDepth 4000 in
/-- C6 counterexample.  The instant `⟨-5⟩` sits exactly halfway between
the multiples `-10` and `0` of `d = 10`; the claim predicts the later
multiple `⟨0⟩`, but `Time.Round` (whose remainder is the negative
truncated `%`) produces `⟨10⟩`. -/
theorem time_round_half_cex :
    Time.Round ⟨-5⟩ 10 = ⟨10⟩ ∧ Time.Round ⟨-5⟩ 10 ≠ ⟨0⟩ ∧
    (-5 : Int) - (-10) = 5 ∧ (10 : Int) = 2 * 5 :=
  ⟨by decide, by decide, by decide, by decide⟩

/-- C6 amended.  For positive `d` and a non-negative instant `t` whose
offset past the preceding multiple of `d` is exactly `d / 2`,
`Time.Round` returns the later multiple (rounds up); for negative
instants at the halfway point the result overshoots by one multiple, as
the counterexample shows. -/
theorem time_round_half_up (t : Time) (d : Int) (hd : 0 < d)
    (hdmax : d ≤ i64max) (ht : 0 ≤ t.time) (htmax : t.time + d ≤ i64max)
    (hhalf : 2 * (t.time % d) = d) :
    t.Round d = ⟨t.time / d * d + d⟩ := by
  have hr : t.time.tmod d = t.time % d := Int.tmod_eq_emod ht (by omega)
  have hmod0 : 0 ≤ t.time % d := Int.emod_nonneg _ (by omega)
  have hmodlt : t.time % d < d := Int.emod_lt_of_pos _ hd
  simp only [i64max] at hdmax htmax
  have hnotlth : ¬ lessThanHalf (t.time.tmod d) d := by
    rw [hr]
    unfold lessThanHalf toU64
    omega
  have hdm2 : t.time / d * d + t.time % d = t.time := by
    rw [mul_comm]
    exact Int.ediv_add_emod t.time d
  simp only [Time.Round, if_neg (not_le.mpr hd)]
  rw [if_neg hnotlth, hr]
  simp only [Time.Add, Time.mk.injEq]
  unfold add64
  have hx : t.time + (d - t.time % d) = t.time / d * d + d := by
    linarith [hdm2]
  rw [hx]
  exact wrap64_eq_self (by simp only [i64min]; omega) (by simp only [i64max]; omega)

/-- Witness for C6 at `t = ⟨5⟩`, `d = 10`. -/
theorem time_round_half_up_witness : Time.Round ⟨5⟩ 10 = ⟨10⟩ :=
  (time_round_half_up ⟨5⟩ 10 (by norm_num) (by decide) (by norm_num)
    (by decide) (by decide)).trans (by decide)

/-- C10.  For a non-positive unit `d`, both `Time.Truncate` and
`Time.Round` return the instant `t` unchanged. -/
theorem time_round_nonpositive (t : Time) (d : Int) (hd : d ≤ 0) :
    t.Truncate d = t ∧ t.Round d = t := by
  constructor <;> simp only [Time.Truncate, Time.Round, if_pos hd]

/-- Witness for C10 at `t = ⟨17⟩`, `d = -1`. -/
theorem time_round_nonpositive_witness :
    Time.Truncate ⟨17⟩ (-1) = ⟨17⟩ ∧ Time.Round ⟨17⟩ (-1) = ⟨17⟩ :=
  time_round_nonpositive ⟨17⟩ (-1) (by norm_num)

/-- The phase formula on a non-negative day count: shifted by 84 days it
repeats, and its value lies in `[0, 12)`. -/
theorem phase_of_days_eq (q : Int) (hq : 0 ≤ q) :
    ((q + 84 + 12).tdiv 7).tmod 12 = ((q + 12).tdiv 7).tmod 12 ∧
    0 ≤ ((q + 12).tdiv 7).tmod 12 ∧ ((q + 12).tdiv 7).tmod 12 < 12 := by
  rw [Int.tdiv_eq_ediv (by omega) (by norm_num),
    Int.tdiv_eq_ediv (by omega : (0 : Int) ≤ q + 12) (by norm_num)]
  have hA : 0 ≤ (q + 84 + 12) / 7 := Int.ediv_nonneg (by omega) (by norm_num)
  have hB : 0 ≤ (q + 12) / 7 := Int.ediv_nonneg (by omega) (by norm_num)
  rw [Int.tmod_eq_emod hA (by norm_num), Int.tmod_eq_emod hB (by norm_num)]
  omega

set_option maxRecDepth 4000 in
/-- C7 counterexample.  At the negative instant `⟨-13 * Day⟩` the phase
is 0, but 84 Vana'diel days later it is 11: truncating division makes
"day 0" two days wide, so the 84-day shift does not preserve the phase
across the epoch. -/
theorem moon_phase_period_cex :
    (Time.Moon (Time.Add ⟨-13 * Day⟩ (84 * Day))).Phase = 11 ∧
    (Time.Moon ⟨-13 * Day⟩).Phase = 0 ∧ (11 : Int) ≠ 0 :=
  ⟨by decide, by decide, by decide⟩

/-- C7 amended.  For instants at or after the epoch (with the 84-day
shift staying inside `int64`), the moon phase is periodic with period
84 Vana'diel days and lies among the 12 ordered phase values `0..11`. -/
theorem moon_phase_period (t : Time) (ht : 0 ≤ t.time)
    (hmax : t.time + 84 * Day ≤ i64max) :
    (Time.Moon (t.Add (84 * Day))).Phase = (t.Moon).Phase ∧
    0 ≤ (t.Moon).Phase ∧ (t.Moon).Phase < 12 := by
  have hDay : Day = 86400000000 := by decide
  have hadd : (t.Add (84 * Day)).time = t.time + 84 * Day := by
    simp only [Time.Add, add64]
    refine wrap64_eq_self ?_ hmax
    simp only [i64min, hDay]
    omega
  simp only [hDay] at hadd
  simp only [Time.Moon, Moon.Phase, hDay, hadd]
  have h84 : (t.time + 84 * 86400000000).tdiv 86400000000 =
      t.time.tdiv 86400000000 + 84 := by
    rw [Int.tdiv_eq_ediv (by omega) (by norm_num),
      Int.tdiv_eq_ediv ht (by norm_num)]
    omega
  rw [h84]
  have hq : 0 ≤ t.time.tdiv 86400000000 := Int.tdiv_nonneg ht (by norm_num)
  generalize t.time.tdiv 86400000000 = q at hq ⊢
  have hph := phase_of_days_eq q hq
  exact ⟨hph.1, hph.2.1, hph.2.2⟩

/-- Witness for C7 at `t = ⟨Day⟩` (one day after the epoch). -/
theorem moon_phase_period_witness :
    (Time.Moon (Time.Add ⟨Day⟩ (84 * Day))).Phase = (Time.Moon ⟨Day⟩).Phase ∧
    0 ≤ (Time.Moon ⟨Day⟩).Phase ∧ (Time.Moon ⟨Day⟩).Phase < 12 :=
  moon_phase_period ⟨Day⟩ (by decide) (by decide)

set_option maxRecDepth 4000 in
/-- C8 counterexample.  At the negative instant `⟨-30 * Day⟩` the moon
percent is -52 (outside `[0, 100]`) and the phase is -2 (outside the 12
named phase values `0..11`). -/
theorem moon_range_cex :
    (Time.Moon ⟨-30 * Day⟩).Percent = -52 ∧
    (Time.Moon ⟨-30 * Day⟩).Phase = -2 ∧
    ¬ (0 ≤ (Time.Moon ⟨-30 * Day⟩).Percent) ∧
    ¬ (0 ≤ (Time.Moon ⟨-30 * Day⟩).Phase) :=
  ⟨by decide, by decide, by decide, by decide⟩

/-- C8 amended.  For instants at or after the epoch, the moon percent is
an integer in `[0, 100]` and the phase is one of the 12 values `0..11`. -/
theorem moon_range (t : Time) (ht : 0 ≤ t.time) :
    0 ≤ (t.Moon).Percent ∧ (t.Moon).Percent ≤ 100 ∧
    0 ≤ (t.Moon).Phase ∧ (t.Moon).Phase < 12 := by
  have hDaypos : (0 : Int) ≤ Day := by decide
  have hq : 0 ≤ t.time.tdiv Day := Int.tdiv_nonneg ht hDaypos
  simp only [Time.Moon, Moon.Percent, Moon.Phase, MoonCycleDays]
  generalize t.time.tdiv Day = q at hq ⊢
  have hph := phase_of_days_eq q hq
  have hxe : (q + 8).tmod 84 = (q + 8) % 84 :=
    Int.tmod_eq_emod (by omega) (by norm_num)
  have h0 : 0 ≤ (q + 8) % 84 := Int.emod_nonneg _ (by norm_num)
  have h84 : (q + 8) % 84 < 84 := Int.emod_lt_of_pos _ (by norm_num)
  rw [hxe]
  unfold roundHalfAway
  rw [if_pos (by omega : (0 : Int) ≤ (q + 8) % 84 * 200)]
  refine ⟨?_, ?_, hph.2.1, hph.2.2⟩ <;> split_ifs <;> omega

/-- Witness for C8 at `t = ⟨Day + 1⟩`. -/
theorem moon_range_witness :
    0 ≤ (Time.Moon ⟨Day + 1⟩).Percent ∧ (Time.Moon ⟨Day + 1⟩).Percent ≤ 100 ∧
    0 ≤ (Time.Moon ⟨Day + 1⟩).Phase ∧ (Time.Moon ⟨Day + 1⟩).Phase < 12 :=
  moon_range ⟨Day + 1⟩ (by decide)

/-! ## Strftime (duration.go / day.go)

The Go formatter replaces, left to right and non-overlapping, every
match of the regular expression
`%([-_0^#]+)?(\d+)?([YCymdejHkMSLNAawsnt%])` (after a first pass that
expands the composite directives `[FXRT]`).  Because the flag class, the
digits and the conversion class are pairwise disjoint in the relevant
positions, leftmost-first matching is equivalent to the greedy
character-level scan implemented below; text that does not match any
directive — including a `%` followed by a letter outside the conversion
class — is passed through unchanged. -/

def flagChars : List Char := ['-', '_', '0', '^', '#']

def normConvChars : List Char := ['F', 'X', 'R', 'T']

def mainConvChars : List Char :=
  ['Y', 'C', 'y', 'm', 'd', 'e', 'j', 'H', 'k', 'M', 'S', 'L', 'N', 'A',
   'a', 'w', 's', 'n', 't', '%']

/-- Split a list into its longest prefix of characters satisfying `p`
and the remainder (the greedy run of a regex character class). -/
def takeRun (p : Char → Bool) : List Char → List Char × List Char
  | [] => ([], [])
  | c :: rest =>
    if p c then
      let q := takeRun p rest
      (c :: q.1, q.2)
    else ([], c :: rest)

/-- The numeric value of a digit run (`strconv.Atoi` on the width
capture group; an absent group yields width 0). -/
def natOfDigits (ds : List Char) : Nat :=
  ds.foldl (fun n c => n * 10 + (c.toNat - 48)) 0

/-- Parse the body of one `%<flags><width><conversion>` directive (the
characters after the `%`): greedy flag run, greedy digit run, then a
conversion character that must belong to `convs`. -/
def parseDir (convs : List Char) (l : List Char) :
    Option (List Char × Nat × Char × List Char) :=
  let f := takeRun (fun c => flagChars.contains c) l
  let w := takeRun Char.isDigit f.2
  match w.2 with
  | [] => none
  | c :: rest => if convs.contains c then some (f.1, natOfDigits w.1, c, rest) else none

/-- `normalizeFormat`'s replacement strings: `%F → %Y-%m-%d`,
`%T`/`%X → %H:%M:%S`, `%R → %H:%M` (flags and width attached to the
composite directive are dropped). -/
def expandDir (c : Char) : List Char :=
  if c = 'F' then ['%', 'Y', '-', '%', 'm', '-', '%', 'd']
  else if c = 'T' ∨ c = 'X' then ['%', 'H', ':', '%', 'M', ':', '%', 'S']
  else if c = 'R' then ['%', 'H', ':', '%', 'M']
  else []

/-- `func normalizeFormat(format string) string` as a fuelled scan (the
fuel is at least the input length, which suffices since every step
consumes at least one character). -/
def normScan : Nat → List Char → List Char
  | 0, l => l
  | _ + 1, [] => []
  | fuel + 1, c :: rest =>
    if c = '%' then
      match parseDir normConvChars rest with
      | some (_, _, conv, rest2) => expandDir conv ++ normScan fuel rest2
      | none => c :: normScan fuel rest
    else c :: normScan fuel rest

/-- `func (t Time) Date() (year, mon, day, yday int)` -/
def Time.Date (t : Time) : Int × Int × Int × Int :=
  let year := t.time.tdiv Year + 1
  let mon := (t.time.tmod Year).tdiv Month + 1
  let day := (t.time.tmod Month).tdiv Day + 1
  (year, mon, day, (mon - 1) * 30 + day)

/-- `func (t Time) Clock() (hour, min, sec int)` -/
def Time.Clock (t : Time) : Int × Int × Int :=
  ((t.time.tmod Day).tdiv Hour,
   (t.time.tmod Hour).tdiv Minute,
   (t.time.tmod Minute).tdiv Second)

/-- `func (t Time) Microsecond() int` -/
def Time.Microsecond (t : Time) : Int := t.time.tmod Second

/-- `func (t Time) Weekday() Weekday` (as its underlying integer). -/
def Time.Weekday (t : Time) : Int := (t.time.tmod Week).tdiv Day

/-- `defaultDayNames` from day.go. -/
def defaultDayNames : List String :=
  ["Firesday", "Earthsday", "Watersday", "Windsday", "Iceday",
   "Lightningday", "Lightsday", "Darksday"]

def emptyString : String := ""

/-- The `source` map built at the top of `Strftime`: the numeric value
rendered for each conversion character, or `none` for a character (such
as `a`) that is in the regex conversion class but absent from the map. -/
def sourceVal (t : Time) (c : Char) : Option Int :=
  if c = 'Y' then some (Time.Date t).1
  else if c = 'C' then some ((Time.Date t).1.tdiv 100)
  else if c = 'y' then some ((Time.Date t).1.tmod 100)
  else if c = 'm' then some (Time.Date t).2.1
  else if c = 'd' then some (Time.Date t).2.2.1
  else if c = 'e' then some (Time.Date t).2.2.1
  else if c = 'j' then some (Time.Date t).2.2.2
  else if c = 'H' then some (Time.Clock t).1
  else if c = 'k' then some (Time.Clock t).1
  else if c = 'M' then some (Time.Clock t).2.1
  else if c = 'S' then some (Time.Clock t).2.2
  else if c = 'L' then some (Time.Microsecond t)
  else if c = 'N' then some (Time.Microsecond t)
  else if c = 'A' then some (Time.Weekday t)
  else if c = 'w' then some (Time.Weekday t)
  else if c = 's' then some t.time
  else none

/-- `formatPadding`: space for `e k A n t %`, zero otherwise. -/
def formatPadding (c : Char) : Char :=
  if c = 'e' ∨ c = 'k' ∨ c = 'A' ∨ c = 'n' ∨ c = 't' ∨ c = '%' then ' '
  else '0'

/-- `formatWidth`: default field widths. -/
def formatWidth (c : Char) : Nat :=
  if c = 'y' ∨ c = 'm' ∨ c = 'd' ∨ c = 'e' ∨ c = 'H' ∨ c = 'k' ∨ c = 'M' ∨
      c = 'S' then 2
  else if c = 'j' ∨ c = 'L' then 3
  else if c = 'N' then 6
  else 0

/-- The flag loop of `Strftime`: later flags override the padding
character (`none` models Go's empty padding string); `^`/`#` set
upcasing. -/
def applyFlags (pad0 : Option Char) (flags : List Char) : Option Char × Bool :=
  flags.foldl
    (fun pu c =>
      if c = '-' then (none, pu.2)
      else if c = '_' then (some ' ', pu.2)
      else if c = '0' then (some '0', pu.2)
      else if c = '^' ∨ c = '#' then (pu.1, true)
      else pu)
    (pad0, false)

def intToChars (i : Int) : List Char := (toString i).data

/-- Render one matched directive: resolve width and padding, produce the
value string per the Go `switch`, pad, then upcase.  Failure paths are
modelled as `none`: for `%A` with a weekday outside `0..7` (reachable at
negative instants) the Go code indexes `defaultDayNames` out of range
and stops with a runtime error; for `%L`/`%N` with width above 24 the Go
code converts a float beyond the `int64` range to `int`, whose value the
language leaves implementation-dependent.  For width at most 6 the
divisor `100000 / int(math.Pow10(width-1))` is exact; for widths 7..24
`int(math.Pow10(width-6))` is an exact in-range power of ten and the
subsequent `int64` product wraps, hence `mul64`. -/
def renderDir (t : Time) (flags : List Char) (width0 : Nat) (conv : Char) :
    Option (List Char) :=
  let width := if width0 = 0 then formatWidth conv else width0
  let pu := applyFlags (some (formatPadding conv)) flags
  let value : Option (List Char) :=
    if conv = 'L' ∨ conv = 'N' then
      let usec := Time.Microsecond t
      if width ≤ 6 then
        some (intToChars (usec.tdiv ((100000 : Int).tdiv (10 ^ (width - 1)))))
      else if width ≤ 24 then
        some (intToChars (mul64 usec (10 ^ (width - 6))))
      else none
    else if conv = 'A' then
      if 0 ≤ Time.Weekday t ∧ Time.Weekday t < 8 then
        some ((defaultDayNames.getD (Time.Weekday t).toNat emptyString).data)
      else none
    else if conv = 'n' then some ['\n']
    else if conv = 't' then some ['\t']
    else if conv = '%' then some ['%']
    else
      match sourceVal t conv with
      | some v => some (intToChars v)
      | none => some []
  value.map (fun v =>
    let padded :=
      match pu.1 with
      | some pc =>
        if 0 < width ∧ v.length < width then
          List.replicate (width - v.length) pc ++ v
        else v
      | none => v
    if pu.2 then padded.map Char.toUpper else padded)

/-- The main replacement pass of `Strftime` as a fuelled scan; `none`
propagates a runtime failure of a directive rendering (in Go the
program stops at that point). -/
def mainScan (t : Time) : Nat → List Char → Option (List Char)
  | 0, l => some l
  | _ + 1, [] => some []
  | fuel + 1, c :: rest =>
    if c = '%' then
      match parseDir mainConvChars rest with
      | some (flags, w, conv, rest2) =>
        match renderDir t flags w conv, mainScan t fuel rest2 with
        | some v, some tail => some (v ++ tail)
        | _, _ => none
      | none => (mainScan t fuel rest).map (fun l => c :: l)
    else (mainScan t fuel rest).map (fun l => c :: l)

/-- `func (t Time) Strftime(format string) string` (`none` models the
run stopping with a runtime error). -/
def Time.Strftime (t : Time) (format : List Char) : Option (List Char) :=
  let nf := normScan (format.length + 1) format
  mainScan t (nf.length + 1) nf

/-! ### Scanner lemmas -/

theorem takeRun_neg (p : Char → Bool) (c : Char) (l : List Char)
    (h : p c = false) : takeRun p (c :: l) = ([], c :: l) := by
  simp [takeRun, h]

/-- A `%` followed by a character that is neither a flag, a digit nor a
conversion letter of `convs` does not begin a directive. -/
theorem parseDir_neg (convs : List Char) (c : Char) (l : List Char)
    (h1 : c ∉ flagChars) (h2 : c.isDigit = false)
    (h3 : c ∉ convs) :
    parseDir convs (c :: l) = none := by
  have ht1 : takeRun (fun x => decide (x ∈ flagChars)) (c :: l) = ([], c :: l) :=
    takeRun_neg _ c l (by simp [h1])
  have ht2 : takeRun Char.isDigit (c :: l) = ([], c :: l) :=
    takeRun_neg _ c l h2
  simp [parseDir, ht1, ht2, h3]

theorem normScan_cons (fuel : Nat) (c : Char) (rest : List Char)
    (hc : c ≠ '%') : normScan (fuel + 1) (c :: rest) = c :: normScan fuel rest := by
  simp [normScan, hc]

theorem normScan_no_pct (fuel : Nat) (l : List Char)
    (h : ∀ x ∈ l, x ≠ '%') : normScan fuel l = l := by
  induction fuel generalizing l with
  | zero => rfl
  | succ f ih =>
    cases l with
    | nil => rfl
    | cons c rest =>
      rw [normScan_cons f c rest (h c (List.mem_cons_self c rest)),
        ih rest (fun x hx => h x (List.mem_cons_of_mem c hx))]

theorem normScan_append (pre : List Char) (fuel : Nat) (rest : List Char)
    (h : ∀ x ∈ pre, x ≠ '%') :
    normScan (pre.length + fuel) (pre ++ rest) = pre ++ normScan fuel rest := by
  induction pre with
  | nil => simp
  | cons c pre ih =>
    rw [show (c :: pre).length + fuel = (pre.length + fuel) + 1 by
        simp [List.length_cons]; omega,
      List.cons_append,
      normScan_cons _ _ _ (h c (List.mem_cons_self c pre)),
      ih (fun x hx => h x (List.mem_cons_of_mem c hx)),
      List.cons_append]

theorem mainScan_cons (t : Time) (fuel : Nat) (c : Char) (rest : List Char)
    (hc : c ≠ '%') :
    mainScan t (fuel + 1) (c :: rest) =
      (mainScan t fuel rest).map (fun l => c :: l) := by
  simp [mainScan, hc]

theorem mainScan_no_pct (t : Time) (fuel : Nat) (l : List Char)
    (h : ∀ x ∈ l, x ≠ '%') : mainScan t fuel l = some l := by
  induction fuel generalizing l with
  | zero => rfl
  | succ f ih =>
    cases l with
    | nil => rfl
    | cons c rest =>
      rw [mainScan_cons t f c rest (h c (List.mem_cons_self c rest)),
        ih rest (fun x hx => h x (List.mem_cons_of_mem c hx))]
      rfl

theorem mainScan_append (t : Time) (pre : List Char) (fuel : Nat)
    (rest : List Char) (h : ∀ x ∈ pre, x ≠ '%') :
    mainScan t (pre.length + fuel) (pre ++ rest) =
      (mainScan t fuel rest).map (fun l => pre ++ l) := by
  induction pre with
  | nil => simp
  | cons c pre ih =>
    rw [show (c :: pre).length + fuel = (pre.length + fuel) + 1 by
        simp [List.length_cons]; omega,
      List.cons_append,
      mainScan_cons _ _ _ _ (h c (List.mem_cons_self c pre)),
      ih (fun x hx => h x (List.mem_cons_of_mem c hx))]
    cases mainScan t fuel rest <;> rfl

/-- A format with no `%` at all is passed through unchanged (and is not
an error). -/
theorem strftime_no_pct (t : Time) (l : List Char) (h : ∀ x ∈ l, x ≠ '%') :
    t.Strftime l = some l := by
  simp only [Time.Strftime]
  rw [normScan_no_pct _ _ h, mainScan_no_pct t _ _ h]

/-- `%a` is inside the conversion class but has no rendering rule: it
renders as the empty string, with the surrounding `%`-free text kept. -/
theorem strftime_dir_a (t : Time) (pre post : List Char)
    (hpre : ∀ x ∈ pre, x ≠ '%') (hpost : ∀ x ∈ post, x ≠ '%') :
    t.Strftime (pre ++ '%' :: 'a' :: post) = some (pre ++ post) := by
  have hnorm : normScan ((pre ++ '%' :: 'a' :: post).length + 1)
      (pre ++ '%' :: 'a' :: post) = pre ++ '%' :: 'a' :: post := by
    rw [show (pre ++ '%' :: 'a' :: post).length + 1 =
        pre.length + (post.length + 3) by simp [List.length_append]; omega,
      normScan_append pre _ _ hpre]
    congr 1
    rw [show post.length + 3 = (post.length + 2) + 1 by omega]
    have hpd : parseDir normConvChars ('a' :: post) = none := rfl
    simp [normScan, hpd, normScan_no_pct _ _ hpost]
  simp only [Time.Strftime, hnorm]
  rw [show (pre ++ '%' :: 'a' :: post).length + 1 =
      pre.length + (post.length + 3) by simp [List.length_append]; omega,
    mainScan_append t pre _ _ hpre]
  rw [show post.length + 3 = (post.length + 2) + 1 by omega]
  have hpd : parseDir mainConvChars ('a' :: post) = some ([], 0, 'a', post) := rfl
  have hrd : renderDir t [] 0 'a' = some [] := rfl
  simp [mainScan, hpd, hrd, mainScan_no_pct t _ post hpost]

/-- A `%` followed by a character outside the whole directive alphabet
is not a directive: it passes through unchanged, with no error. -/
theorem strftime_dir_unknown (t : Time) (pre post : List Char) (c : Char)
    (hpre : ∀ x ∈ pre, x ≠ '%') (hpost : ∀ x ∈ post, x ≠ '%')
    (hcf : c ∉ flagChars) (hcd : c.isDigit = false)
    (hcn : c ∉ normConvChars)
    (hcm : c ∉ mainConvChars) (hcp : c ≠ '%') :
    t.Strftime (pre ++ '%' :: c :: post) = some (pre ++ '%' :: c :: post) := by
  have hnorm : normScan ((pre ++ '%' :: c :: post).length + 1)
      (pre ++ '%' :: c :: post) = pre ++ '%' :: c :: post := by
    rw [show (pre ++ '%' :: c :: post).length + 1 =
        pre.length + (post.length + 3) by simp [List.length_append]; omega,
      normScan_append pre _ _ hpre]
    congr 1
    rw [show post.length + 3 = (post.length + 2) + 1 by omega]
    have hpd := parseDir_neg normConvChars c post hcf hcd hcn
    simp [normScan, hpd, hcp, normScan_no_pct _ _ hpost]
  simp only [Time.Strftime, hnorm]
  rw [show (pre ++ '%' :: c :: post).length + 1 =
      pre.length + (post.length + 3) by simp [List.length_append]; omega,
    mainScan_append t pre _ _ hpre]
  rw [show post.length + 3 = (post.length + 2) + 1 by omega]
  have hpd := parseDir_neg mainConvChars c post hcf hcd hcm
  simp [mainScan, hpd, hcp, mainScan_no_pct t _ post hpost]

set_option maxRecDepth 4000 in
/-- C9 counterexample.  `%Q` is not in the directive regular
expression's conversion class, so it is not replaced at all: on format
`a%Qb` the claim predicts `ab` (empty rendering with surroundings
preserved), but `Strftime` returns `a%Qb` unchanged. -/
theorem strftime_unknown_cex :
    Time.Strftime ⟨0⟩ ['a', '%', 'Q', 'b'] = some ['a', '%', 'Q', 'b'] ∧
    Time.Strftime ⟨0⟩ ['a', '%', 'Q', 'b'] ≠ some ['a', 'b'] :=
  ⟨by decide, by decide⟩

set_option maxRecDepth 4000 in
/-- C9 amended.  A malformed or unknown directive never causes an
error: for any `%`-free literal texts `pre` and `post` and any instant,
(i) a format of literal text only is rendered unchanged; (ii) the
directive `%a`, whose letter is in the conversion class but has no
rendering rule, renders as the empty string with the surrounding text
preserved; (iii) a `%` followed by a character outside the directive
alphabet (no flag, digit, conversion or composite letter, nor `%`) is
not a directive and passes through unchanged.  `Strftime` is not total,
though: `%A` at an instant with negative weekday is a runtime error,
modelled as `none` (final conjunct). -/
theorem strftime_unknown (t : Time) (pre post : List Char) (c : Char)
    (hpre : ∀ x ∈ pre, x ≠ '%') (hpost : ∀ x ∈ post, x ≠ '%')
    (hcf : c ∉ flagChars) (hcd : c.isDigit = false)
    (hcn : c ∉ normConvChars)
    (hcm : c ∉ mainConvChars) (hcp : c ≠ '%') :
    t.Strftime (pre ++ post) = some (pre ++ post) ∧
    t.Strftime (pre ++ '%' :: 'a' :: post) = some (pre ++ post) ∧
    t.Strftime (pre ++ '%' :: c :: post) = some (pre ++ '%' :: c :: post) ∧
    Time.Strftime ⟨-Day⟩ ['%', 'A'] = none := by
  refine ⟨?_, strftime_dir_a t pre post hpre hpost,
    strftime_dir_unknown t pre post c hpre hpost hcf hcd hcn hcm hcp,
    by decide⟩
  refine strftime_no_pct t _ (fun x hx => ?_)
  rcases List.mem_append.mp hx with h | h
  · exact hpre x h
  · exact hpost x h

set_option maxRecDepth 4000 in
/-- Witness for C9 at `t = ⟨5⟩`, `pre = "a"`, `post = "b"`, `c = 'Q'`. -/
theorem strftime_unknown_witness :
    Time.Strftime ⟨5⟩ (['a'] ++ ['b']) = some (['a'] ++ ['b']) ∧
    Time.Strftime ⟨5⟩ (['a'] ++ '%' :: 'a' :: ['b']) = some (['a'] ++ ['b']) ∧
    Time.Strftime ⟨5⟩ (['a'] ++ '%' :: 'Q' :: ['b']) =
      some (['a'] ++ '%' :: 'Q' :: ['b']) ∧
    Time.Strftime ⟨-Day⟩ ['%', 'A'] = none :=
  strftime_unknown ⟨5⟩ ['a'] ['b'] 'Q' (by decide) (by decide) (by decide)
    (by decide) (by decide) (by decide) (by decide)

end Vanatime
